import Mathlib

/-!
Verification of the NudleSearch front end (client-side presentation layer).

Strings are embedded as `List Char` (Lean `Char` is a Unicode scalar value).
A router interaction is embedded as the list of paths pushed by one event
handler invocation (`router.push` calls, in order); `[]` means no navigation.

Source files embedded here:
- `src/frontend/src/components/common/SearchBar.tsx`
- `src/frontend/src/components/search/NavBar.tsx`
- `src/frontend/src/components/common/NudleLogo.tsx` (the variant with the
  `redirect` prop, shipped alongside `ThemeToggle.tsx`)
- `src/frontend/src/app/page.tsx`, `src/frontend/src/app/search/page.tsx`
- `src/frontend/src/components/common/Loading.tsx`
Platform functions the source calls (`String.prototype.trim`,
`encodeURIComponent`, `URLSearchParams` / `useSearchParams().get`) are
embedded after their ECMAScript / WHATWG-URL specifications.
-/

/-- ECMAScript WhiteSpace or LineTerminator code points, the set removed by
`String.prototype.trim` (WhiteSpace: TAB VT FF SP NBSP ZWNBSP and Unicode Zs;
LineTerminator: LF CR LS PS). -/
def jsWhitespace (c : Char) : Bool :=
  let n := c.toNat
  n = 0x9 ∨ n = 0xA ∨ n = 0xB ∨ n = 0xC ∨ n = 0xD ∨ n = 0x20 ∨ n = 0xA0 ∨
  n = 0x1680 ∨ (0x2000 ≤ n ∧ n ≤ 0x200A) ∨ n = 0x2028 ∨ n = 0x2029 ∨
  n = 0x202F ∨ n = 0x205F ∨ n = 0x3000 ∨ n = 0xFEFF

/-- `String.prototype.trim`: strip leading and trailing JS whitespace. -/
def jsTrim (l : List Char) : List Char :=
  ((l.dropWhile jsWhitespace).reverse.dropWhile jsWhitespace).reverse

/-- Characters `encodeURIComponent` leaves unescaped (ECMA-262
`uriUnescaped`): ASCII alphanumerics and hyphen, underscore, period,
exclamation mark, tilde, asterisk, apostrophe and parentheses. -/
def uriUnreserved (c : Char) : Bool :=
  let n := c.toNat
  (65 ≤ n ∧ n ≤ 90) ∨ (97 ≤ n ∧ n ≤ 122) ∨ (48 ≤ n ∧ n ≤ 57) ∨
  n = 45 ∨ n = 95 ∨ n = 46 ∨ n = 33 ∨ n = 126 ∨ n = 42 ∨ n = 39 ∨
  n = 40 ∨ n = 41

/-- UTF-8 encoding of a Unicode code point, as a list of byte values. -/
def utf8Encode (n : Nat) : List Nat :=
  if n < 0x80 then [n]
  else if n < 0x800 then [0xC0 + n / 64, 0x80 + n % 64]
  else if n < 0x10000 then
    [0xE0 + n / 4096, 0x80 + (n / 64) % 64, 0x80 + n % 64]
  else
    [0xF0 + n / 262144, 0x80 + (n / 4096) % 64, 0x80 + (n / 64) % 64,
     0x80 + n % 64]

/-- Uppercase hex digit character for a value below 16 (the case
`encodeURIComponent` emits). -/
def hexDigit (d : Nat) : Char :=
  Char.ofNat (if d < 10 then 48 + d else 55 + d)

/-- The percent-escape `%XY` of one byte. -/
def pctTriple (b : Nat) : List Char :=
  ['%', hexDigit (b / 16), hexDigit (b % 16)]

/-- ECMA-262 `encodeURIComponent`: unreserved characters pass through, every
other character is replaced by the percent-escapes of its UTF-8 bytes. -/
def encodeURIComponent (l : List Char) : List Char :=
  l.flatMap fun c =>
    if uriUnreserved c then [c] else (utf8Encode c.toNat).flatMap pctTriple

/-- Numeric value of an ASCII hex digit, `none` for any other character. -/
def hexVal (c : Char) : Option Nat :=
  let n := c.toNat
  if 48 ≤ n ∧ n ≤ 57 then some (n - 48)
  else if 65 ≤ n ∧ n ≤ 70 then some (n - 55)
  else if 97 ≤ n ∧ n ≤ 102 then some (n - 87)
  else none

/-- WHATWG `application/x-www-form-urlencoded` value decoding, byte phase:
`+` becomes 0x20, `%` followed by two hex digits becomes that byte, any other
`%` passes through literally, and every other character contributes its UTF-8
bytes. Malformed escapes are passed through, never an error. -/
def formUrlDecodeBytes : List Char → List Nat
  | [] => []
  | c :: rest =>
    if c = '+' then 32 :: formUrlDecodeBytes rest
    else if c = '%' then
      if 2 ≤ rest.length ∧ (hexVal (rest.getD 0 ' ')).isSome ∧
          (hexVal (rest.getD 1 ' ')).isSome then
        (16 * (hexVal (rest.getD 0 ' ')).getD 0 +
            (hexVal (rest.getD 1 ' ')).getD 0) ::
          formUrlDecodeBytes (rest.drop 2)
      else 37 :: formUrlDecodeBytes rest
    else utf8Encode c.toNat ++ formUrlDecodeBytes rest
termination_by l => l.length
decreasing_by all_goals simp <;> omega

/-- Whether a byte is a UTF-8 continuation byte. -/
def isContByte (b : Nat) : Bool :=
  0x80 ≤ b ∧ b < 0xC0

/-- WHATWG UTF-8 decode: total, invalid sequences yield U+FFFD instead of an
error. Valid sequences (the only ones the proved claims exercise) are decoded
exactly; on invalid input the replacement-character count may differ from the
maximal-subpart rule of the standard. -/
def utf8DecodeReplace : List Nat → List Char
  | [] => []
  | b :: bs =>
    if b < 0x80 then Char.ofNat b :: utf8DecodeReplace bs
    else if b < 0xC2 then Char.ofNat 0xFFFD :: utf8DecodeReplace bs
    else if b < 0xE0 then
      if 1 ≤ bs.length ∧ isContByte (bs.getD 0 0) then
        Char.ofNat ((b - 0xC0) * 64 + (bs.getD 0 0 - 0x80)) ::
          utf8DecodeReplace (bs.drop 1)
      else Char.ofNat 0xFFFD :: utf8DecodeReplace bs
    else if b < 0xF0 then
      if 2 ≤ bs.length ∧ isContByte (bs.getD 0 0) ∧ isContByte (bs.getD 1 0) ∧
          (b = 0xE0 → 0xA0 ≤ bs.getD 0 0) ∧ (b = 0xED → bs.getD 0 0 < 0xA0)
        then
        Char.ofNat ((b - 0xE0) * 4096 + (bs.getD 0 0 - 0x80) * 64 +
            (bs.getD 1 0 - 0x80)) ::
          utf8DecodeReplace (bs.drop 2)
      else Char.ofNat 0xFFFD :: utf8DecodeReplace bs
    else if b < 0xF5 then
      if 3 ≤ bs.length ∧ isContByte (bs.getD 0 0) ∧ isContByte (bs.getD 1 0) ∧
          isContByte (bs.getD 2 0) ∧
          (b = 0xF0 → 0x90 ≤ bs.getD 0 0) ∧ (b = 0xF4 → bs.getD 0 0 < 0x90)
        then
        Char.ofNat ((b - 0xF0) * 262144 + (bs.getD 0 0 - 0x80) * 4096 +
            (bs.getD 1 0 - 0x80) * 64 + (bs.getD 2 0 - 0x80)) ::
          utf8DecodeReplace (bs.drop 3)
      else Char.ofNat 0xFFFD :: utf8DecodeReplace bs
    else Char.ofNat 0xFFFD :: utf8DecodeReplace bs
termination_by l => l.length
decreasing_by all_goals simp <;> omega

/-- Full WHATWG urlencoded value decoding: byte phase then UTF-8 decode. -/
def urlDecodeValue (l : List Char) : List Char :=
  utf8DecodeReplace (formUrlDecodeBytes l)

/-- The query component of a URL: everything after the first `?`, truncated
at a `#` (empty when there is no `?`). -/
def queryOf (url : List Char) : List Char :=
  ((url.dropWhile (· ≠ '?')).drop 1).takeWhile (· ≠ '#')

/-- Split a query on `&` into raw `name=value` segments. -/
def splitAmp : List Char → List (List Char)
  | [] => [[]]
  | c :: rest =>
    if c = '&' then [] :: splitAmp rest
    else match splitAmp rest with
      | seg :: segs => (c :: seg) :: segs
      | [] => [[c]]

/-- Split one segment at its first `=` into name and value (no `=`: the whole
segment is the name and the value is empty, as in the URL standard). -/
def splitEqPair : List Char → List Char × List Char
  | [] => ([], [])
  | c :: rest =>
    if c = '=' then ([], rest)
    else ((splitEqPair rest).1.cons c, (splitEqPair rest).2)

/-- WHATWG urlencoded parser: split on `&`, skip empty segments, split each
segment at its first `=`, urldecode names and values. -/
def parseQuery (l : List Char) : List (List Char × List Char) :=
  (splitAmp l).filterMap fun seg =>
    if seg = [] then none
    else some (urlDecodeValue (splitEqPair seg).1,
               urlDecodeValue (splitEqPair seg).2)

/-- Embedding of `useSearchParams().get(name)`: the value of the first pair whose name
matches, `none` when the parameter is absent. -/
def searchParamsGet (name : List Char) (url : List Char) :
    Option (List Char) :=
  ((parseQuery (queryOf url)).find? fun p => p.1 = name).map (·.2)

/-- NavBar.tsx: `const query = searchParams.get('q') || ''` — absence (and,
via JS falsiness, the empty string) degrades to the empty string. -/
def navBarQuery (url : List Char) : List Char :=
  (searchParamsGet ['q'] url).getD []

/-! ### SearchBar (src/frontend/src/components/common/SearchBar.tsx) -/

/-- Local React state of the SearchBar: `useState(query)`. -/
structure SearchBarState where
  searchQuery : List Char
deriving DecidableEq, Repr

/-- Mounting a SearchBar with initial prop `query` (default empty):
`useState(query)` seeds the local state from the prop once. -/
def mountSearchBar (query : List Char) : SearchBarState :=
  ⟨query⟩

/-- A re-render of a mounted `SearchBar` with a new `query` prop: `useState`
ignores its argument after the first render and the component has no effect
synchronizing the prop into state, so the state is unchanged. -/
def searchBarPropUpdate (newQuery : List Char) (st : SearchBarState) :
    SearchBarState :=
  st

/-- The fixed results path and parameter name in the pushed URL template. -/
def searchUrlStem : List Char :=
  ['/', 's', 'e', 'a', 'r', 'c', 'h', '?', 'q', '=']

/-- Commit handler `handleSearch`: if the trimmed query is truthy (non-empty), push
`/search?q=` followed by the `encodeURIComponent` of the trimmed query;
otherwise do nothing. Returns the list of `router.push` calls made. -/
def handleSearch (st : SearchBarState) : List (List Char) :=
  if jsTrim st.searchQuery ≠ [] then
    [searchUrlStem ++ encodeURIComponent (jsTrim st.searchQuery)]
  else []

/-- Key handler `handleKeyDown`: the Enter key invokes `handleSearch`, any other key does
nothing. -/
def handleKeyDown (key : List Char) (st : SearchBarState) :
    List (List Char) :=
  if key = 'E' :: 'n' :: 't' :: 'e' :: 'r' :: [] then handleSearch st else []

/-- One commit of the SearchBar, as a state transformer paired with the
`router.push` calls it makes. `handleSearch` never calls `setSearchQuery`,
so the state component is returned as is. -/
def commit (st : SearchBarState) : SearchBarState × List (List Char) :=
  (st, handleSearch st)

/-- The text shown in the input element: `value={searchQuery}`. -/
def displayedText (st : SearchBarState) : List Char :=
  st.searchQuery

/-! ### NudleLogo (src/frontend/src/components/common/NudleLogo.tsx) -/

/-- Size-variant enumeration of the Logo: sm, md, lg, xl, xxl. -/
inductive LogoSize where
  | sm | md | lg | xl | xxl
deriving DecidableEq, Repr

/-- Presentation scale of a size variant, from the `sizeClasses` map
(`text-2xl`, `text-4xl`, `text-6xl`, `text-8xl`, `text-[10rem]`); used only
to compare variants. -/
def LogoSize.scale : LogoSize → Nat
  | .sm => 2
  | .md => 4
  | .lg => 6
  | .xl => 8
  | .xxl => 10

/-- Props of NudleLogo after defaulting: size md, redirect the root path. -/
structure NudleLogoProps where
  size : LogoSize := .md
  redirect : List Char := ['/']
deriving DecidableEq, Repr

/-- Source line: `const redirectEnabled = (redirect != '')`. -/
def redirectEnabled (p : NudleLogoProps) : Bool :=
  p.redirect ≠ []

/-- Click handler of the Logo (`handleRedirect`): pushes the redirect target when
redirection is enabled, otherwise does nothing. Returns the `router.push`
calls made. -/
def handleRedirect (p : NudleLogoProps) : List (List Char) :=
  if redirectEnabled p then [p.redirect] else []

/-- The Logo instantiated by NavBar.tsx: `<NudleLogo size="lg" />` — the
`redirect` prop is omitted, so the default applies. -/
def navBarLogo : NudleLogoProps :=
  { size := .lg }

/-- The Logo instantiated by the landing page (app/page.tsx):
`<NudleLogo size="xxl" redirect="" />`. -/
def homeLogo : NudleLogoProps :=
  { size := .xxl, redirect := [] }

/-! ### Search page shell (src/frontend/src/app/search/page.tsx) and
Loading (src/frontend/src/components/common/Loading.tsx) -/

/-- Rendered view tree of the Search page, abstracted to the elements the
claims mention. `loading` is one instance of the Loading component. -/
inductive Elem where
  | loading
  | navBarElem
  | divider
  | navRegion (child1 child2 : Elem)
  | mainRegion (child1 child2 : Elem)
deriving DecidableEq, Repr

/-- React `Suspense` semantics: show the fallback while the child subtree is
suspended, the child once it has resolved. -/
def suspenseView (resolved : Bool) (fallback content : Elem) : Elem :=
  if resolved then content else fallback

/-- The `<nav>` subtree of the Search page: the Suspense boundary (fallback
`<Loading />`, content `<NavBar />`) followed by a divider `<div>`. -/
def searchPageNav (resolved : Bool) : Elem :=
  .navRegion (suspenseView resolved .loading .navBarElem) .divider

/-- Main region of the Search page: the nav subtree and, after it, a second
unconditional `<Loading/>` element. -/
def searchPage (resolved : Bool) : Elem :=
  .mainRegion (searchPageNav resolved) .loading

/-- Whether element `t` occurs anywhere in the rendered tree `e`. -/
def occursIn (t : Elem) : Elem → Bool
  | .navRegion a b => (Elem.navRegion a b = t) ∨ occursIn t a ∨ occursIn t b
  | .mainRegion a b => (Elem.mainRegion a b = t) ∨ occursIn t a ∨ occursIn t b
  | e => e = t

/-! ### Theme (providers/ThemeProvider.tsx is not part of the source tree) -/

/-- The two-valued theme enumeration `{light, dark}`. -/
inductive ThemeValue where
  | light | dark
deriving DecidableEq, Repr

/-- Modelled from the spec: the `toggleTheme` operation of the Theme Provider
(the provider module `src/frontend/src/providers/ThemeProvider.tsx` is only
imported, not present in the source tree). Per the spec it is the inversion
operation on the two-valued enumeration: light and dark swap. -/
def toggleTheme : ThemeValue → ThemeValue
  | .light => .dark
  | .dark => .light

/-! ### Claim theorems (part 1) -/

/-- C1: for every string whose trim is non-empty, the commit operation —
whether invoked by the search-icon click (which calls `handleSearch`
directly) or by the Enter key (via `handleKeyDown`) — issues exactly one
push navigation, to `/search` with `q` bound to the percent-encoding of the
trimmed string. -/
theorem C1_commit_single_push (s : List Char) (h : jsTrim s ≠ []) :
    handleSearch ⟨s⟩ = [searchUrlStem ++ encodeURIComponent (jsTrim s)] ∧
    handleKeyDown ['E', 'n', 't', 'e', 'r'] ⟨s⟩ =
      [searchUrlStem ++ encodeURIComponent (jsTrim s)] := by
  constructor <;> simp [handleSearch, handleKeyDown, h]

/-- Witness for C1 at the input with two spaces around the word cats. -/
theorem C1_commit_single_push_witness :
    handleSearch ⟨[' ', ' ', 'c', 'a', 't', 's', ' ', ' ']⟩ =
      [searchUrlStem ++
        encodeURIComponent (jsTrim [' ', ' ', 'c', 'a', 't', 's', ' ', ' '])] ∧
    handleKeyDown ['E', 'n', 't', 'e', 'r']
        ⟨[' ', ' ', 'c', 'a', 't', 's', ' ', ' ']⟩ =
      [searchUrlStem ++
        encodeURIComponent (jsTrim [' ', ' ', 'c', 'a', 't', 's', ' ', ' '])] :=
  C1_commit_single_push [' ', ' ', 'c', 'a', 't', 's', ' ', ' '] (by decide)

/-- C2: for every string whose trim is empty, commit issues no navigation
and leaves the state unchanged — a silent no-op, not an error (the embedded
commit is a total function). -/
theorem C2_empty_commit_noop (s : List Char) (h : jsTrim s = []) :
    commit ⟨s⟩ = (⟨s⟩, []) := by
  simp [commit, handleSearch, h]

/-- Witness for C2 at a two-space input. -/
theorem C2_empty_commit_noop_witness :
    commit ⟨[' ', ' ']⟩ = (⟨[' ', ' ']⟩, []) :=
  C2_empty_commit_noop [' ', ' '] (by decide)

/-- C4 counterexample: after the suspended subtree resolves, the Loading
component is still present in the rendered Search page, because
`app/search/page.tsx` renders a second unconditional `<Loading/>` in the
page body outside the Suspense boundary. -/
theorem C4_counterexample :
    ¬ occursIn Elem.loading (searchPage true) = false := by decide

/-- C4 amended: once the suspended subtree resolves, the Loading fallback is
gone from the suspension boundary region (the nav), where the Navigation Bar
appears in its place — while unresolved the region shows Loading and no
Navigation Bar — but a second, unconditional Loading instance remains
elsewhere in the Search page body. -/
theorem C4_amended_boundary_swap :
    occursIn Elem.loading (searchPageNav true) = false ∧
    occursIn Elem.navBarElem (searchPageNav true) = true ∧
    occursIn Elem.loading (searchPageNav false) = true ∧
    occursIn Elem.navBarElem (searchPageNav false) = false ∧
    occursIn Elem.loading (searchPage true) = true := by decide

/-- C5 counterexample: clicking the Logo instantiated by the Navigation Bar
does navigate — NavBar.tsx omits the `redirect` prop, so the default `/`
applies and the click pushes `/`; the claim says that click performs no
navigation. -/
theorem C5_counterexample : ¬ handleRedirect navBarLogo = [] := by decide

/-- C5 amended: the Navigation Bar instantiates the Logo at the compact size
lg (smaller than the landing page variant xxl), but in its interactive
default-redirect variant: clicking it pushes a navigation to `/`. -/
theorem C5_amended_navbar_logo :
    navBarLogo.size = LogoSize.lg ∧
    LogoSize.lg.scale < LogoSize.xxl.scale ∧
    navBarLogo.redirect = ['/'] ∧
    handleRedirect navBarLogo = [['/']] := by decide

/-- C6 counterexample: after mounting with initial value a and then
receiving a changed prop b, the local Query String still reads a, not b —
`useState(query)` seeds only at mount and SearchBar.tsx has no effect
synchronizing later prop values. -/
theorem C6_counterexample :
    searchBarPropUpdate ['b'] (mountSearchBar ['a']) ≠ mountSearchBar ['b'] :=
  by decide

/-- C6 amended: the local Query String is seeded from the initial-value prop
at mount only; a later change of the prop on a mounted widget leaves the
local state unchanged, and only remounting re-initializes the displayed
text. -/
theorem C6_amended_seed_at_mount_only :
    (∀ (q : List Char) (st : SearchBarState), searchBarPropUpdate q st = st) ∧
    ∀ q : List Char, (mountSearchBar q).searchQuery = q :=
  ⟨fun _ _ => rfl, fun _ => rfl⟩

/-- C7: the redirect target defaults to `/`; clicking the Logo pushes
exactly its redirect target when that target is non-empty, and is inert
(no push) when the target is the empty string. -/
theorem C7_logo_redirect (sz : LogoSize) (r : List Char) :
    ({} : NudleLogoProps).redirect = ['/'] ∧
    (r ≠ [] → handleRedirect ⟨sz, r⟩ = [r]) ∧
    (r = [] → handleRedirect ⟨sz, r⟩ = []) := by
  refine ⟨rfl, fun h => ?_, fun h => ?_⟩ <;>
    simp [handleRedirect, redirectEnabled, h]

/-- Witness for C7: the root redirect navigates, the empty redirect is
inert. -/
theorem C7_logo_redirect_witness :
    ({} : NudleLogoProps).redirect = ['/'] ∧
    handleRedirect ⟨LogoSize.md, ['/']⟩ = [['/']] ∧
    handleRedirect ⟨LogoSize.xxl, []⟩ = [] :=
  ⟨(C7_logo_redirect LogoSize.md ['/']).1,
   (C7_logo_redirect LogoSize.md ['/']).2.1 (by decide),
   (C7_logo_redirect LogoSize.xxl []).2.2 rfl⟩

/-- C9: the theme toggle is its own inverse — applying the Theme Provider
toggle operation twice restores the original of the two theme values. -/
theorem C9_toggle_involutive (t : ThemeValue) :
    toggleTheme (toggleTheme t) = t := by
  cases t <;> rfl

/-- C10: commit is a frame on the widget state — whether or not a
navigation is issued, the stored state and the displayed text after commit
are exactly the text as typed, untrimmed. -/
theorem C10_commit_preserves_state (st : SearchBarState) :
    (commit st).1 = st ∧ displayedText (commit st).1 = st.searchQuery :=
  ⟨rfl, rfl⟩

/-! ### Encoding round-trip lemmas -/

theorem charOfNat_toNat {n : Nat} (h : Nat.isValidChar n) :
    (Char.ofNat n).toNat = n := by
  simp [Char.ofNat, h, Char.ofNatAux, Char.toNat, UInt32.toNat,
    BitVec.toNat_ofNatLt]

theorem char_isValidChar (c : Char) : Nat.isValidChar c.toNat :=
  c.valid

theorem formUrlDecodeBytes_nil : formUrlDecodeBytes [] = [] := by
  rw [formUrlDecodeBytes.eq_def]

theorem utf8DecodeReplace_nil : utf8DecodeReplace [] = [] := by
  rw [utf8DecodeReplace.eq_def]

theorem utf8DecodeReplace_one (b : Nat) (bs : List Nat) (h : b < 0x80) :
    utf8DecodeReplace (b :: bs) = Char.ofNat b :: utf8DecodeReplace bs := by
  rw [utf8DecodeReplace.eq_def]
  simp [h]

theorem utf8DecodeReplace_two (n : Nat) (bs : List Nat)
    (h1 : 0x80 ≤ n) (h2 : n < 0x800) :
    utf8DecodeReplace ((0xC0 + n / 64) :: (0x80 + n % 64) :: bs) =
      Char.ofNat n :: utf8DecodeReplace bs := by
  have ha : ¬ (0xC0 + n / 64 < 0x80) := by omega
  have hb : ¬ (0xC0 + n / 64 < 0xC2) := by omega
  have hc : 0xC0 + n / 64 < 0xE0 := by omega
  have hd : isContByte (0x80 + n % 64) = true := by simp [isContByte]; omega
  rw [utf8DecodeReplace.eq_def]
  simp [ha, hb, hc, hd]
  have hv2 : n / 64 * 64 + n % 64 = n := by omega
  rw [hv2]

theorem utf8DecodeReplace_three (n : Nat) (bs : List Nat)
    (h1 : 0x800 ≤ n) (h2 : n < 0x10000) (h3 : n < 0xD800 ∨ 0xDFFF < n) :
    utf8DecodeReplace
        ((0xE0 + n / 4096) :: (0x80 + (n / 64) % 64) :: (0x80 + n % 64) :: bs)
      = Char.ofNat n :: utf8DecodeReplace bs := by
  have ha : ¬ (0xE0 + n / 4096 < 0x80) := by omega
  have hb : ¬ (0xE0 + n / 4096 < 0xC2) := by omega
  have hc : ¬ (0xE0 + n / 4096 < 0xE0) := by omega
  have hd : 0xE0 + n / 4096 < 0xF0 := by omega
  have he : isContByte (0x80 + (n / 64) % 64) = true := by
    simp [isContByte]; omega
  have hf : isContByte (0x80 + n % 64) = true := by
    simp [isContByte]; omega
  rw [utf8DecodeReplace.eq_def]
  simp [ha, hb, hc, hd, he, hf]
  split
  · rw [show n / 4096 * 4096 + n / 64 % 64 * 64 + n % 64 = n by omega]
  · next hcond => exact absurd (by omega) hcond

theorem utf8DecodeReplace_four (n : Nat) (bs : List Nat)
    (h1 : 0x10000 ≤ n) (h2 : n < 0x110000) :
    utf8DecodeReplace
        ((0xF0 + n / 262144) :: (0x80 + (n / 4096) % 64) ::
          (0x80 + (n / 64) % 64) :: (0x80 + n % 64) :: bs)
      = Char.ofNat n :: utf8DecodeReplace bs := by
  have ha : ¬ (0xF0 + n / 262144 < 0x80) := by omega
  have hb : ¬ (0xF0 + n / 262144 < 0xC2) := by omega
  have hc : ¬ (0xF0 + n / 262144 < 0xE0) := by omega
  have hd : ¬ (0xF0 + n / 262144 < 0xF0) := by omega
  have he : 0xF0 + n / 262144 < 0xF5 := by omega
  have hf : isContByte (0x80 + (n / 4096) % 64) = true := by
    simp [isContByte]; omega
  have hg : isContByte (0x80 + (n / 64) % 64) = true := by
    simp [isContByte]; omega
  have hh : isContByte (0x80 + n % 64) = true := by
    simp [isContByte]; omega
  rw [utf8DecodeReplace.eq_def]
  simp [ha, hb, hc, hd, he, hf, hg, hh]
  split
  · rw [show n / 262144 * 262144 + n / 4096 % 64 * 4096 + n / 64 % 64 * 64 +
        n % 64 = n by omega]
  · next hcond => exact absurd (by omega) hcond

theorem utf8Encode_bytes_lt (n : Nat) (h : n < 0x110000) :
    ∀ b ∈ utf8Encode n, b < 256 := by
  intro b hb
  by_cases h1 : n < 0x80
  · simp [utf8Encode, h1] at hb; omega
  · by_cases h2 : n < 0x800
    · simp [utf8Encode, h1, h2] at hb
      rcases hb with hb | hb <;> omega
    · by_cases h3 : n < 0x10000
      · simp [utf8Encode, h1, h2, h3] at hb
        rcases hb with hb | hb | hb <;> omega
      · simp [utf8Encode, h1, h2, h3] at hb
        rcases hb with hb | hb | hb | hb <;> omega

theorem utf8DecodeReplace_encode (n : Nat) (bs : List Nat)
    (h : Nat.isValidChar n) :
    utf8DecodeReplace (utf8Encode n ++ bs) =
      Char.ofNat n :: utf8DecodeReplace bs := by
  have h3 : n < 0xD800 ∨ 0xDFFF < n := by
    rcases h with h | h
    · exact Or.inl h
    · exact Or.inr h.1
  have hlt : n < 0x110000 := by
    rcases h with h | h
    · omega
    · exact h.2
  by_cases h1 : n < 0x80
  · rw [show utf8Encode n = [n] by rw [utf8Encode, if_pos h1]]
    exact utf8DecodeReplace_one n bs h1
  · by_cases h2 : n < 0x800
    · rw [show utf8Encode n = [0xC0 + n / 64, 0x80 + n % 64] by
        rw [utf8Encode, if_neg h1, if_pos h2]]
      exact utf8DecodeReplace_two n bs (by omega) h2
    · by_cases h4 : n < 0x10000
      · rw [show utf8Encode n =
            [0xE0 + n / 4096, 0x80 + (n / 64) % 64, 0x80 + n % 64] by
          rw [utf8Encode, if_neg h1, if_neg h2, if_pos h4]]
        exact utf8DecodeReplace_three n bs (by omega) h4 h3
      · rw [show utf8Encode n =
            [0xF0 + n / 262144, 0x80 + (n / 4096) % 64, 0x80 + (n / 64) % 64,
             0x80 + n % 64] by
          rw [utf8Encode, if_neg h1, if_neg h2, if_neg h4]]
        exact utf8DecodeReplace_four n bs (by omega) hlt

theorem hexVal_hexDigit (d : Nat) (h : d < 16) :
    hexVal (hexDigit d) = some d := by
  interval_cases d <;> decide

theorem uriUnreserved_lt (c : Char) (h : uriUnreserved c = true) :
    c.toNat < 0x80 := by
  simp [uriUnreserved] at h
  omega

theorem uriUnreserved_ne_plus (c : Char) (h : uriUnreserved c = true) :
    ¬ c = '+' := by
  intro he
  rw [he] at h
  exact absurd h (by decide)

theorem uriUnreserved_ne_pct (c : Char) (h : uriUnreserved c = true) :
    ¬ c = '%' := by
  intro he
  rw [he] at h
  exact absurd h (by decide)

theorem formUrlDecodeBytes_unres (c : Char) (r : List Char)
    (h : uriUnreserved c = true) :
    formUrlDecodeBytes (c :: r) = c.toNat :: formUrlDecodeBytes r := by
  rw [formUrlDecodeBytes.eq_def]
  simp only [uriUnreserved_ne_plus c h, uriUnreserved_ne_pct c h, if_false,
    ite_false]
  rw [show utf8Encode c.toNat = [c.toNat] by
    rw [utf8Encode, if_pos (uriUnreserved_lt c h)]]
  simp

theorem formUrlDecodeBytes_pct (bytes : List Nat) (r : List Char)
    (h : ∀ b ∈ bytes, b < 256) :
    formUrlDecodeBytes (bytes.flatMap pctTriple ++ r) =
      bytes ++ formUrlDecodeBytes r := by
  induction bytes with
  | nil => simp
  | cons b bt ih =>
    have hb : b < 256 := h b (List.mem_cons_self b bt)
    have hx : hexVal (hexDigit (b / 16)) = some (b / 16) :=
      hexVal_hexDigit _ (by omega)
    have hy : hexVal (hexDigit (b % 16)) = some (b % 16) :=
      hexVal_hexDigit _ (by omega)
    rw [List.flatMap_cons]
    simp only [pctTriple, List.cons_append, List.nil_append]
    rw [formUrlDecodeBytes.eq_def]
    simp [hx, hy]
    rw [show 16 * (b / 16) + b % 16 = b by omega]
    exact ⟨rfl, ih fun x hx => h x (List.mem_cons_of_mem b hx)⟩

theorem formUrlDecodeBytes_encode (l : List Char) :
    formUrlDecodeBytes (encodeURIComponent l) =
      l.flatMap fun c => utf8Encode c.toNat := by
  induction l with
  | nil => simp [encodeURIComponent, formUrlDecodeBytes_nil]
  | cons c t ih =>
    by_cases hc : uriUnreserved c
    · rw [show encodeURIComponent (c :: t) = c :: encodeURIComponent t by
        simp [encodeURIComponent, hc]]
      rw [formUrlDecodeBytes_unres c _ hc, ih, List.flatMap_cons]
      rw [show utf8Encode c.toNat = [c.toNat] by
        rw [utf8Encode, if_pos (uriUnreserved_lt c hc)]]
      rfl
    · have hlt : c.toNat < 0x110000 := by
        rcases char_isValidChar c with h | h
        · omega
        · exact h.2
      rw [show encodeURIComponent (c :: t) =
          (utf8Encode c.toNat).flatMap pctTriple ++ encodeURIComponent t by
        simp [encodeURIComponent, hc]]
      rw [formUrlDecodeBytes_pct _ _ (utf8Encode_bytes_lt c.toNat hlt), ih,
        List.flatMap_cons]

theorem utf8DecodeReplace_flatMap (l : List Char) :
    utf8DecodeReplace (l.flatMap fun c => utf8Encode c.toNat) = l := by
  induction l with
  | nil => simp [utf8DecodeReplace_nil]
  | cons c t ih =>
    rw [List.flatMap_cons,
      utf8DecodeReplace_encode c.toNat _ (char_isValidChar c), ih,
      Char.ofNat_toNat]

theorem urlDecodeValue_encode (l : List Char) :
    urlDecodeValue (encodeURIComponent l) = l := by
  rw [urlDecodeValue, formUrlDecodeBytes_encode, utf8DecodeReplace_flatMap]

/-! ### URL parsing lemmas -/

theorem hexDigit_ne_amp_hash (d : Nat) (h : d < 16) :
    hexDigit d ≠ '&' ∧ hexDigit d ≠ '#' := by
  interval_cases d <;> exact ⟨by decide, by decide⟩

theorem encodeURIComponent_ne_amp_hash (l : List Char) :
    ∀ x ∈ encodeURIComponent l, x ≠ '&' ∧ x ≠ '#' := by
  intro x hx
  simp only [encodeURIComponent, List.mem_flatMap] at hx
  obtain ⟨c, hc, hmem⟩ := hx
  by_cases hu : uriUnreserved c
  · rw [if_pos hu] at hmem
    simp only [List.mem_singleton] at hmem
    subst hmem
    constructor <;> intro he <;> rw [he] at hu <;> exact absurd hu (by decide)
  · rw [if_neg hu] at hmem
    have hlt : c.toNat < 0x110000 := by
      rcases char_isValidChar c with h | h
      · omega
      · exact h.2
    simp only [List.mem_flatMap, pctTriple] at hmem
    obtain ⟨b, hb, hbx⟩ := hmem
    have hb256 : b < 256 := utf8Encode_bytes_lt c.toNat hlt b hb
    simp only [List.mem_cons, List.mem_singleton, List.not_mem_nil] at hbx
    rcases hbx with h | h | h
    · subst h; exact ⟨by decide, by decide⟩
    · subst h; exact hexDigit_ne_amp_hash _ (by omega)
    · rcases h with h | h
      · subst h; exact hexDigit_ne_amp_hash _ (by omega)
      · exact absurd h (by simp)

theorem splitAmp_no_amp (l : List Char) (h : ∀ c ∈ l, c ≠ '&') :
    splitAmp l = [l] := by
  induction l with
  | nil => rfl
  | cons c t ih =>
    have hc : ¬ c = '&' := h c (List.mem_cons_self c t)
    rw [splitAmp.eq_def]
    simp only [hc, if_false, ite_false]
    rw [ih fun x hx => h x (List.mem_cons_of_mem c hx)]

theorem queryOf_searchUrl (s : List Char) :
    queryOf (searchUrlStem ++ encodeURIComponent s) =
      'q' :: '=' :: encodeURIComponent s := by
  rw [queryOf, searchUrlStem]
  simp only [List.cons_append, List.nil_append, List.dropWhile]
  norm_num [List.drop]
  refine ⟨by decide, by decide, fun a ha => ?_⟩
  exact (encodeURIComponent_ne_amp_hash s a ha).2

theorem urlDecodeValue_q : urlDecodeValue ['q'] = ['q'] := by
  simp [urlDecodeValue, formUrlDecodeBytes, utf8DecodeReplace, utf8Encode,
    Char.ofNat]

/-! ### Claim theorems (part 2) -/

/-- C3: the query round-trip — navigating to `/search?q=` followed by the
percent-encoding of any string and then reading the Navigation Bar query
extraction yields that string back. Proved for every `List Char` string
(every Unicode scalar string), with no exclusions, which covers the claim
for strings without non-reversibly-encoded characters. -/
theorem C3_roundtrip (s : List Char) :
    navBarQuery (searchUrlStem ++ encodeURIComponent s) = s := by
  rw [navBarQuery, searchParamsGet, queryOf_searchUrl, parseQuery]
  rw [splitAmp_no_amp]
  · simp only [List.filterMap]
    rw [splitEqPair.eq_def]
    simp only [show ¬ 'q' = '=' by decide, if_false, ite_false]
    rw [splitEqPair.eq_def]
    simp only [if_pos rfl]
    simp [urlDecodeValue_q, urlDecodeValue_encode, List.find?]
  · intro x hx
    simp only [List.mem_cons] at hx
    rcases hx with h | h | h
    · subst h; decide
    · subst h; decide
    · exact (encodeURIComponent_ne_amp_hash s x h).1

/-- C8 counterexample: a malformed percent escape does not degrade to the
empty Query String — on the URL `/search?q=%GG` the extraction yields the
three characters of `%GG` passed through literally, which is non-empty. -/
theorem C8_counterexample :
    ¬ navBarQuery
        ['/', 's', 'e', 'a', 'r', 'c', 'h', '?', 'q', '=', '%', 'G', 'G'] =
      [] := by
  have h : navBarQuery
      ['/', 's', 'e', 'a', 'r', 'c', 'h', '?', 'q', '=', '%', 'G', 'G'] =
      ['%', 'G', 'G'] := by
    simp [navBarQuery, searchParamsGet, parseQuery, queryOf, splitAmp,
      splitEqPair, urlDecodeValue, formUrlDecodeBytes, utf8DecodeReplace,
      utf8Encode, hexVal, List.find?, Char.ofNat]
  rw [h]
  simp

/-- C8 amended: absence of the `q` parameter yields the empty string and no
error, and malformed percent-encoding likewise propagates no error — the
extraction is a total function — but it degrades to the malformed text
passed through literally (here `%GG`), not to the empty Query String. -/
theorem C8_amended_extraction_total :
    searchParamsGet ['q'] ['/', 's', 'e', 'a', 'r', 'c', 'h'] = none ∧
    navBarQuery ['/', 's', 'e', 'a', 'r', 'c', 'h'] = [] ∧
    navBarQuery
        ['/', 's', 'e', 'a', 'r', 'c', 'h', '?', 'q', '=', '%', 'G', 'G'] =
      ['%', 'G', 'G'] := by
  refine ⟨?_, ?_, ?_⟩ <;>
    simp [navBarQuery, searchParamsGet, parseQuery, queryOf, splitAmp,
      splitEqPair, urlDecodeValue, formUrlDecodeBytes, utf8DecodeReplace,
      utf8Encode, hexVal, List.find?, Char.ofNat]
